import Mathlib

/-!
Verification development for the Adafruit_Legolas command-line tool
(ELF query, Intel HEX merge and pad commands).

The Intel HEX images are modelled as sparse maps from byte address to
byte value; the repository delegates the raw image operations
(`IntelHex.merge`, `minaddr`, `maxaddr`, item assignment) to the
external `intelhex` collaborator, whose contract is taken from the
specification.  The command-level control flow (hexmerge.py, hexpad.py,
elfquery.py) is embedded directly from the source.  The source targets
Python 2 (it relies on old-style classes and `Exception.message`), so
Python-2 comparison semantics are used where they matter: `None`
compares less than every integer, while `None + int` raises `TypeError`.
-/

/-- A sparse Intel HEX image: an association list from byte address to
byte value.  The effective value at an address is the value of the
most recent write, i.e. the first matching entry (`hget`); an address
is "used" when some entry carries it. -/
abbrev HexImage : Type := List (Int × Nat)

/-- Effective value of the image at address `a` (first entry wins,
matching the most-recent-write-first representation). -/
def hget (img : HexImage) (a : Int) : Option Nat :=
  (List.find? (fun p => p.1 == a) img).map Prod.snd

/-- Write one byte into the image (`img[a] = v` in the source):
the new entry shadows any older entry at the same address. -/
def hset (img : HexImage) (a : Int) (v : Nat) : HexImage :=
  (a, v) :: img

/-- An address is used when the image defines a byte there. -/
def usedAddr (img : HexImage) (a : Int) : Bool :=
  (hget img a).isSome

/-- Modelled from the spec: the collaborator's minimum used address
(`IntelHex.minaddr`), `None` on an image with no used addresses. -/
def minaddr (img : HexImage) : Option Int :=
  match img with
  | [] => none
  | p :: t => some (List.foldl (fun acc q => min acc q.1) p.1 t)

/-- Modelled from the spec: the collaborator's maximum used address
(`IntelHex.maxaddr`), `None` on an image with no used addresses. -/
def maxaddr (img : HexImage) : Option Int :=
  match img with
  | [] => none
  | p :: t => some (List.foldl (fun acc q => max acc q.1) p.1 t)

/-- Overlap policies accepted by the collaborator's `merge`. -/
inductive Overlap
  | error
  | ignore
  | replace
deriving DecidableEq

/-- The data part of a merge: the incoming image's entries shadow the
accumulator's, so wherever the incoming image defines a byte it wins
and elsewhere the accumulator's byte survives. -/
def mergeData (self other : HexImage) : HexImage :=
  other ++ self

/-- First address defined by both images with different values, if any
(the condition the `error` overlap policy reports on). -/
def findConflict (self other : HexImage) : Option Int :=
  List.find?
    (fun a =>
      match hget self a, hget other a with
      | some v, some w => v != w
      | _, _ => false)
    (List.map Prod.fst other)

/-- Modelled from the spec: the collaborator's `IntelHex.merge(other,
overlap)` (the `intelhex` dependency is not part of this repository's
sources).  Under `error` the merge aborts when the incoming image
defines an address already defined by the accumulator with a different
value; under `ignore` the later image's value silently wins; under
`replace` the incoming image's data wins.  The error value is the
first conflicting address. -/
def ihMerge (self other : HexImage) (ov : Overlap) : Except Int HexImage :=
  match ov with
  | Overlap.error =>
    match findConflict self other with
    | some a => Except.error a
    | none => Except.ok (mergeData self other)
  | Overlap.ignore => Except.ok (mergeData self other)
  | Overlap.replace => Except.ok (mergeData self other)

/-- Errors reported by the `hexmerge` command: the only one is the
`ClickException` raised when `AddressOverlapError` escapes the merge
loop; the command writes no output in that case. -/
inductive MergeErr
  | overlapDetected
deriving DecidableEq

/-- The merge loop of `hexmerge` (hexmerge.py lines 75-80): fold the
input images left to right into the accumulator, aborting the whole
command on the first overlap error. -/
def mergeFold (acc : HexImage) (inputs : List HexImage) (ov : Overlap) :
    Except MergeErr HexImage :=
  match inputs with
  | [] => Except.ok acc
  | i :: rest =>
    match ihMerge acc i ov with
    | Except.ok acc2 => mergeFold acc2 rest ov
    | Except.error _ => Except.error MergeErr.overlapDetected

/-- The `hexmerge` command body: start from a fresh empty image and
fold all inputs into it (hexmerge.py lines 75-80); on success the
merged image is written out, on overlap failure nothing is written. -/
def hexmergeCmd (inputs : List HexImage) (ov : Overlap) :
    Except MergeErr HexImage :=
  mergeFold ([] : HexImage) inputs ov

/-- The byte actually stored by the pad loop: `pad & 0xFF`
(hexpad.py line 139); Python's bitwise-and with `0xFF` is the
Euclidean remainder modulo 256. -/
def padByteVal (pad : Int) : Nat :=
  (pad % 256).toNat

/-- The addresses visited by `range(start, end+1)` (hexpad.py
line 138): `start, start+1, ..., end`, empty when `end < start`. -/
def rangeList (s e : Int) : List Int :=
  List.map (fun k : Nat => s + (k : Int)) (List.range (e + 1 - s).toNat)

/-- The build step of `hexpad` (hexpad.py lines 137-142): fill a fresh
image with the pad byte at every address of `[s, e]`, then merge the
input image on top with `replace` semantics so original data wins. -/
def buildPadded (img : HexImage) (s e : Int) (pad : Int) : HexImage :=
  let padded := List.foldl (fun acc i => hset acc i (padByteVal pad))
    ([] : HexImage) (rangeList s e)
  mergeData padded img

/-- Errors of the `hexpad` command.  `negative` and `ordering` are the
two `ClickException` user errors of hexpad.py lines 128-132 (under
Python 2 a `None` bound also trips the negativity comparison, since
`None < 0` is true there); `typeErr` is an uncaught Python `TypeError`
(a crash, not a reported user error), raised when relative resolution
adds `None` to an offset. -/
inductive PadError
  | negative
  | ordering
  | typeErr
deriving DecidableEq

/-- The `hexpad` command body (hexpad.py lines 108-142): resolve
defaulted bounds (absolute mode defaults to the image's min/max used
address, relative mode to offset 0), validate only in absolute mode,
resolve relative offsets against the image extent, then build the
padded image.  On success the result is written out; on a reported
error nothing is written. -/
def hexpad (img : HexImage) (startArg endArg : Option Int) (pad : Int)
    (relative : Bool) : Except PadError HexImage :=
  let s0 : Option Int :=
    match startArg with
    | some s => some s
    | none => if relative then some 0 else minaddr img
  let e0 : Option Int :=
    match endArg with
    | some e => some e
    | none => if relative then some 0 else maxaddr img
  if relative then
    match s0, e0, minaddr img, maxaddr img with
    | some s, some e, some m, some M =>
      Except.ok (buildPadded img (m + s) (M + e) pad)
    | _, _, _, _ => Except.error PadError.typeErr
  else
    match s0, e0 with
    | some s, some e =>
      if s < 0 ∨ e < 0 then Except.error PadError.negative
      else if e < s then Except.error PadError.ordering
      else Except.ok (buildPadded img s e pad)
    | _, _ => Except.error PadError.negative

/-! ## ELF query embedding (elfquery.py) -/

/-- The hex digit characters produced by Python's uppercase `X` format. -/
def hexDigitChar (d : Nat) : Char :=
  if d < 10 then Char.ofNat (48 + d) else Char.ofNat (55 + d)

/-- Uppercase hexadecimal digits of `n`, most significant first,
accumulated onto `acc`. -/
def toHexAux (n : Nat) (acc : List Char) : List Char :=
  if h : n < 16 then hexDigitChar n :: acc
  else toHexAux (n / 16) (hexDigitChar (n % 16) :: acc)
termination_by n
decreasing_by
  exact Nat.div_lt_self (Nat.lt_of_lt_of_le (by decide) (Nat.le_of_not_lt h))
    (by decide)

/-- The registered scalar function `to_hex(number, width)`
(elfquery.py lines 254-259): render `number` as uppercase hexadecimal,
left-padded with zeros to `width` characters (never truncated). -/
def to_hex (number width : Nat) : String :=
  let digits := toHexAux number []
  String.mk (List.replicate (width - digits.length) '0' ++ digits)

/-- Value of one hexadecimal character, accepting both cases. -/
def hexCharVal (c : Char) : Option Nat :=
  if 48 ≤ c.toNat ∧ c.toNat ≤ 57 then some (c.toNat - 48)
  else if 65 ≤ c.toNat ∧ c.toNat ≤ 70 then some (c.toNat - 55)
  else if 97 ≤ c.toNat ∧ c.toNat ≤ 102 then some (c.toNat - 87)
  else none

/-- Accumulating parse of hexadecimal characters; `none` once any
character is not a hex digit. -/
def parseHexGo (l : List Char) (acc : Option Nat) : Option Nat :=
  List.foldl
    (fun r c =>
      match r, hexCharVal c with
      | some a, some d => some (16 * a + d)
      | _, _ => none)
    acc l

/-- The registered scalar function `from_hex(value)` (elfquery.py
lines 262-264), i.e. Python's `int(value, 16)` restricted to plain
strings of hexadecimal digits: `none` models the `ValueError` raised
on an empty or non-hexadecimal string. -/
def from_hex (value : String) : Option Nat :=
  match value.data with
  | [] => none
  | l => parseHexGo l (some 0)

/-- Python's `str.strip()` with no argument: remove leading and
trailing whitespace (structural model over the character list). -/
def pyStrip (s : String) : String :=
  String.mk
    (((s.data.dropWhile Char.isWhitespace).reverse.dropWhile
      Char.isWhitespace).reverse)

/-- One entry of an ELF symbol table, as exposed by the pyelftools
collaborator after the `describe_*` renderings: raw value and size,
described type / binding / visibility strings, the described
section-index token `shndx` (a decimal string for plain numeric
indices, a token such as `UND` or `ABS` otherwise), and the symbol
name. -/
structure ElfSymbol where
  value : Nat
  size : Nat
  typ : String
  bind : String
  visibility : String
  shndx : String
  name : String
deriving DecidableEq

/-- One ELF section as exposed by the pyelftools collaborator:
the described header fields, whether the section object is a
`SymbolTableSection`, and its symbol entries in file order. -/
structure ElfSection where
  name : String
  typ : String
  flags : String
  addr : Nat
  offset : Nat
  size : Nat
  link : Nat
  info : Nat
  addralign : Nat
  entsize : Nat
  isSymtab : Bool
  symbols : List ElfSymbol
deriving DecidableEq

/-- A parsed ELF file: its sections in file order. -/
structure ELF where
  sections : List ElfSection
deriving DecidableEq

/-- A row of the `sections` table (SECTION_COLS, elfquery.py lines
54-64), populated by `_load_db` lines 164-177. -/
structure SectionRow where
  number : Nat
  name : String
  typ : String
  flags : String
  addr : Nat
  offset : Nat
  size : Nat
  link : Nat
  info : Nat
  addralign : Nat
  entsize : Nat
deriving DecidableEq

/-- A row of the `symbols` table (SYMBOL_COLS, elfquery.py lines
43-51).  `number` is the `integer primary key autoincrement` column,
filled by SQLite since `_load_db` inserts NULL for it; `section` is
the `Section` column, the name of the section referenced by the
symbol's section-index field when that resolves, else NULL. -/
structure SymbolRow where
  number : Nat
  value : Nat
  size : Nat
  typ : String
  bind : String
  visibility : String
  shndx : String
  name : String
  sectionName : Option String
deriving DecidableEq

/-- Projection of the sections table (`_load_db`, elfquery.py lines
164-177): one row per section in file order, `Number` = enumeration
position, string fields stripped. -/
def sectionRows (elf : ELF) : List SectionRow :=
  List.map
    (fun p =>
      ⟨p.1, pyStrip p.2.name, pyStrip p.2.typ, pyStrip p.2.flags, p.2.addr,
        p.2.offset, p.2.size, p.2.link, p.2.info, p.2.addralign,
        p.2.entsize⟩)
    elf.sections.enum

/-- Python's `str.isdigit` on the described section-index token:
true exactly for a non-empty string of decimal digits. -/
def strIsDigit (s : String) : Bool :=
  !s.data.isEmpty && s.data.all Char.isDigit

/-- Decimal value of a digit string (the SQLite text-to-integer
affinity conversion applied when `_get_section` compares the text
parameter against the integer `Number` column). -/
def digitsToNat (s : String) : Nat :=
  List.foldl (fun a c => 10 * a + (c.toNat - 48)) 0 s.data

/-- The related-section resolution of `_load_db` lines 187-192:
when the described section-index token is a plain digit string and a
section row with that `Number` exists, the row's `Section` column gets
that section's (stripped) name; otherwise it stays NULL. -/
def relatedSection (elf : ELF) (shndx : String) : Option String :=
  if strIsDigit shndx then
    match List.get? elf.sections (digitsToNat shndx) with
    | some sec => some (pyStrip sec.name)
    | none => none
  else none

/-- The sections contributing symbol rows (`_load_db` lines 180-184):
symbol-table sections whose entry size is non-zero. -/
def symtabSections (elf : ELF) : List ElfSection :=
  List.filter (fun s => s.isSymtab && s.entsize != 0) elf.sections

/-- One symbol row (`_load_db` lines 193-203), given the value SQLite
assigns to the autoincrement `Number` column. -/
def mkSymbolRow (elf : ELF) (rowid : Nat) (sym : ElfSymbol) : SymbolRow :=
  ⟨rowid, sym.value, sym.size, pyStrip sym.typ, pyStrip sym.bind,
    pyStrip sym.visibility, pyStrip sym.shndx, pyStrip sym.name,
    relatedSection elf (pyStrip sym.shndx)⟩

/-- Helper numbering a list of symbols with consecutive rowids. -/
def numberSyms (elf : ELF) (rowid : Nat) (syms : List ElfSymbol) :
    List SymbolRow :=
  match syms with
  | [] => []
  | s :: rest => mkSymbolRow elf rowid s :: numberSyms elf (rowid + 1) rest

/-- Helper walking the qualifying symbol tables in file order while
threading the autoincrement counter. -/
def symbolRowsGo (elf : ELF) (rowid : Nat) (secs : List ElfSection) :
    List SymbolRow :=
  match secs with
  | [] => []
  | sec :: rest =>
    numberSyms elf rowid sec.symbols ++
      symbolRowsGo elf (rowid + sec.symbols.length) rest

/-- Projection of the symbols table (`_load_db` lines 179-203): for
every symbol-table section with non-zero entry size, in file order,
one row per symbol entry in file order; SQLite's autoincrement assigns
`Number` values 1, 2, 3, ... in insertion order across all tables. -/
def symbolRows (elf : ELF) : List SymbolRow :=
  symbolRowsGo elf 1 (symtabSections elf)

/-! ## Helper lemmas: hex images -/

theorem hget_nil (x : Int) : hget ([] : HexImage) x = none := rfl

theorem hget_append (a b : HexImage) (x : Int) :
    hget (a ++ b) x = (hget a x).or (hget b x) := by
  unfold hget
  rw [List.find?_append]
  cases List.find? (fun p => p.1 == x) a <;> simp [Option.or]

theorem hget_isSome_iff (img : HexImage) (x : Int) :
    (hget img x).isSome = true ↔ x ∈ List.map Prod.fst img := by
  unfold hget
  rw [Option.isSome_map']
  rw [List.find?_isSome]
  simp only [List.mem_map]
  constructor
  · rintro ⟨p, hp, hpx⟩
    exact ⟨p, hp, by simpa using hpx⟩
  · rintro ⟨p, hp, hpx⟩
    exact ⟨p, hp, by simpa using hpx⟩

theorem hget_hset (img : HexImage) (i : Int) (v : Nat) (x : Int) :
    hget (hset img i v) x = if x = i then some v else hget img x := by
  unfold hget hset
  rw [List.find?_cons]
  by_cases h : x = i
  · subst h
    simp
  · have : ((i, v).1 == x) = false := by
      simp [Ne.symm h]
    simp [this, h]

theorem findConflict_eq_none_iff (a b : HexImage) :
    findConflict a b = none ↔
      ∀ x, (hget a x).isSome = true → (hget b x).isSome = true →
        hget a x = hget b x := by
  unfold findConflict
  rw [List.find?_eq_none]
  constructor
  · intro h x ha hb
    have hx : x ∈ List.map Prod.fst b := (hget_isSome_iff b x).1 hb
    have hpred := h x hx
    obtain ⟨v, hv⟩ := Option.isSome_iff_exists.1 ha
    obtain ⟨w, hw⟩ := Option.isSome_iff_exists.1 hb
    rw [hv, hw] at hpred ⊢
    simp only [bne_iff_ne, ne_eq, Bool.not_eq_true] at hpred
    simp at hpred
    simp [hpred]
  · intro h x hx
    cases ha : hget a x with
    | none => simp [ha]
    | some v =>
      cases hb : hget b x with
      | none => simp [ha, hb]
      | some w =>
        have := h x (by simp [ha]) (by simp [hb])
        rw [ha, hb] at this
        simp at this
        simp [ha, hb, this]

theorem hget_foldl_hset (l : List Int) (acc : HexImage) (v : Nat) (x : Int) :
    hget (List.foldl (fun a i => hset a i v) acc l) x =
      if x ∈ l then some v else hget acc x := by
  induction l generalizing acc with
  | nil => simp
  | cons i t ih =>
    simp only [List.foldl_cons]
    rw [ih]
    by_cases hx : x ∈ t
    · simp [hx]
    · rw [if_neg hx, hget_hset]
      by_cases hxi : x = i
      · simp [hxi]
      · simp [hxi, hx]

theorem mem_rangeList (s e x : Int) : x ∈ rangeList s e ↔ s ≤ x ∧ x ≤ e := by
  unfold rangeList
  rw [List.mem_map]
  constructor
  · rintro ⟨k, hk, rfl⟩
    rw [List.mem_range] at hk
    omega
  · rintro ⟨h1, h2⟩
    refine ⟨(x - s).toNat, ?_, ?_⟩
    · rw [List.mem_range]
      omega
    · omega

theorem hget_buildPadded (img : HexImage) (s e pad : Int) (x : Int) :
    hget (buildPadded img s e pad) x =
      (hget img x).or
        (if s ≤ x ∧ x ≤ e then some (padByteVal pad) else none) := by
  unfold buildPadded mergeData
  rw [hget_append]
  congr 1
  rw [hget_foldl_hset]
  rw [hget_nil]
  by_cases hx : x ∈ rangeList s e
  · rw [if_pos hx, if_pos ((mem_rangeList s e x).1 hx)]
  · rw [if_neg hx, if_neg (fun h => hx ((mem_rangeList s e x).2 h))]

theorem foldl_min_le_init (t : List (Int × Nat)) (a : Int) :
    List.foldl (fun acc q => min acc q.1) a t ≤ a := by
  induction t generalizing a with
  | nil => exact le_refl a
  | cons q t ih =>
    exact le_trans (ih (min a q.1)) (min_le_left a q.1)

theorem init_le_foldl_max (t : List (Int × Nat)) (a : Int) :
    a ≤ List.foldl (fun acc q => max acc q.1) a t := by
  induction t generalizing a with
  | nil => exact le_refl a
  | cons q t ih =>
    exact le_trans (le_max_left a q.1) (ih (max a q.1))

theorem lb_foldl_min (t : List (Int × Nat)) (a c : Int) (hc : c ≤ a)
    (ht : ∀ q ∈ t, c ≤ q.1) :
    c ≤ List.foldl (fun acc q => min acc q.1) a t := by
  induction t generalizing a with
  | nil => exact hc
  | cons q t ih =>
    exact ih (min a q.1) (le_min hc (ht q (List.mem_cons_self q t)))
      (fun r hr => ht r (List.mem_cons_of_mem q hr))

theorem minaddr_le_maxaddr (img : HexImage) (m M : Int)
    (hm : minaddr img = some m) (hM : maxaddr img = some M) : m ≤ M := by
  cases img with
  | nil => simp [minaddr] at hm
  | cons p t =>
    simp only [minaddr, Option.some.injEq] at hm
    simp only [maxaddr, Option.some.injEq] at hM
    calc m ≤ p.1 := hm ▸ foldl_min_le_init t p.1
    _ ≤ M := hM ▸ init_le_foldl_max t p.1

theorem minaddr_nonneg (img : HexImage) (m : Int)
    (hpos : ∀ p ∈ img, 0 ≤ p.1) (hm : minaddr img = some m) : 0 ≤ m := by
  cases img with
  | nil => simp [minaddr] at hm
  | cons p t =>
    simp only [minaddr, Option.some.injEq] at hm
    exact hm ▸ lb_foldl_min t p.1 0 (hpos p (List.mem_cons_self p t))
      (fun q hq => hpos q (List.mem_cons_of_mem p hq))

/-! ## Helper lemmas: merge fold -/

/-- Effective value at `x` of a left-to-right scan of the inputs where
a later image defining `x` supersedes an earlier one. -/
def lookupLast (imgs : List HexImage) (x : Int) : Option Nat :=
  List.foldl
    (fun r i =>
      match hget i x with
      | some v => some v
      | none => r)
    none imgs

theorem mergeFold_ignore (imgs : List HexImage) (acc : HexImage) :
    mergeFold acc imgs Overlap.ignore =
      Except.ok (List.foldl mergeData acc imgs) := by
  induction imgs generalizing acc with
  | nil => rfl
  | cons i t ih =>
    simp only [mergeFold, ihMerge, List.foldl_cons]
    exact ih (mergeData acc i)

theorem hget_mergeData (acc i : HexImage) (x : Int) :
    hget (mergeData acc i) x = (hget i x).or (hget acc x) := by
  unfold mergeData
  exact hget_append i acc x

theorem hget_foldl_mergeData (imgs : List HexImage) (acc : HexImage)
    (x : Int) :
    hget (List.foldl mergeData acc imgs) x =
      List.foldl
        (fun r i =>
          match hget i x with
          | some v => some v
          | none => r)
        (hget acc x) imgs := by
  induction imgs generalizing acc with
  | nil => rfl
  | cons i t ih =>
    simp only [List.foldl_cons]
    rw [ih (mergeData acc i)]
    congr 1
    rw [hget_mergeData]
    cases hget i x <;> rfl

theorem foldl_lookup_isSome (imgs : List HexImage) (x : Int)
    (r : Option Nat) :
    (List.foldl
        (fun r i =>
          match hget i x with
          | some v => some v
          | none => r)
        r imgs).isSome = true ↔
      r.isSome = true ∨ ∃ i ∈ imgs, (hget i x).isSome = true := by
  induction imgs generalizing r with
  | nil => simp
  | cons i t ih =>
    simp only [List.foldl_cons]
    rw [ih]
    cases hi : hget i x with
    | none => simp [hi]
    | some v =>
      simp only [List.mem_cons]
      constructor
      · intro _
        exact Or.inr ⟨i, Or.inl rfl, by simp [hi]⟩
      · intro _
        exact Or.inl rfl

theorem findConflict_nil_left (b : HexImage) :
    findConflict ([] : HexImage) b = none := by
  rw [findConflict_eq_none_iff]
  intro x hx
  rw [hget_nil] at hx
  simp at hx

theorem mergeData_nil (a : HexImage) : mergeData ([] : HexImage) a = a :=
  List.append_nil a

/-! ## Claim theorems: hex merge -/

/-- C1: with the default `error` overlap policy, folding the input
images left to right, a step whose incoming image defines an address
already defined by the accumulator with a different value aborts the
whole command with the overlap error (so nothing is written), while
two images agreeing wherever both are defined merge successfully. -/
theorem hexmerge_error_policy (a b : HexImage) :
    ((∃ x, usedAddr a x = true ∧ usedAddr b x = true ∧
        hget a x ≠ hget b x) →
      hexmergeCmd [a, b] Overlap.error =
        Except.error MergeErr.overlapDetected) ∧
    ((∀ x, (hget a x).isSome = true → (hget b x).isSome = true →
        hget a x = hget b x) →
      ∃ out, hexmergeCmd [a, b] Overlap.error = Except.ok out ∧
        ∀ x, hget out x = (hget b x).or (hget a x)) := by
  have h1 : hexmergeCmd [a, b] Overlap.error =
      match ihMerge a b Overlap.error with
      | Except.ok acc2 => Except.ok acc2
      | Except.error _ => Except.error MergeErr.overlapDetected := by
    show mergeFold [] [a, b] Overlap.error = _
    simp only [mergeFold, ihMerge, findConflict_nil_left, mergeData_nil]
  constructor
  · rintro ⟨x, hua, hub, hne⟩
    have hcon : findConflict a b ≠ none := by
      intro hn
      exact hne (((findConflict_eq_none_iff a b).1 hn) x hua hub)
    cases hc : findConflict a b with
    | none => exact absurd hc hcon
    | some c =>
      rw [h1]
      simp [ihMerge, hc]
  · intro hcompat
    have hc : findConflict a b = none :=
      (findConflict_eq_none_iff a b).2 hcompat
    refine ⟨mergeData a b, ?_, fun x => hget_mergeData a b x⟩
    rw [h1]
    simp [ihMerge, hc]

/-- C1 witness: images both defining address 0 with values 1 and 2
collide and the merge command errors; with equal values the merge
succeeds. -/
theorem hexmerge_error_policy_witness :
    hexmergeCmd [[((0 : Int), 1)], [((0 : Int), 2)]] Overlap.error =
      Except.error MergeErr.overlapDetected ∧
    ∃ out,
      hexmergeCmd [[((0 : Int), 1)], [((0 : Int), 1)]] Overlap.error =
        Except.ok out ∧
      ∀ x, hget out x =
        (hget [((0 : Int), 1)] x).or (hget [((0 : Int), 1)] x) := by
  constructor
  · exact (hexmerge_error_policy [((0 : Int), 1)] [((0 : Int), 2)]).1
      ⟨0, by decide, by decide, by decide⟩
  · exact (hexmerge_error_policy [((0 : Int), 1)] [((0 : Int), 1)]).2
      (fun x _ _ => rfl)

/-- C6: with the `ignore` overlap policy the command always succeeds,
the value at every address is the last-listed input's value there
(last-writer-wins), and the used-address set of the result is the
union of the inputs' used-address sets. -/
theorem hexmerge_ignore_policy (inputs : List HexImage) :
    ∃ out, hexmergeCmd inputs Overlap.ignore = Except.ok out ∧
      (∀ x, hget out x = lookupLast inputs x) ∧
      (∀ x, usedAddr out x = true ↔
        ∃ i ∈ inputs, usedAddr i x = true) := by
  refine ⟨List.foldl mergeData [] inputs, mergeFold_ignore inputs [], ?_, ?_⟩
  · intro x
    rw [hget_foldl_mergeData]
    rfl
  · intro x
    show (hget (List.foldl mergeData [] inputs) x).isSome = true ↔ _
    rw [hget_foldl_mergeData]
    rw [show hget ([] : HexImage) x = none from rfl]
    rw [foldl_lookup_isSome]
    simp [usedAddr]

/-- C6 witness: for two inputs overlapping at address 0 with values
1 then 2, the merged value at 0 is the later input's value 2. -/
theorem hexmerge_ignore_policy_witness :
    ∃ out,
      hexmergeCmd [[((0 : Int), 1)], [((0 : Int), 2)]] Overlap.ignore =
        Except.ok out ∧
      hget out 0 = some 2 := by
  obtain ⟨out, hok, hval, -⟩ :=
    hexmerge_ignore_policy [[((0 : Int), 1)], [((0 : Int), 2)]]
  refine ⟨out, hok, ?_⟩
  rw [hval]
  decide

/-! ## Claim theorems: hex pad -/

theorem hexpad_absolute_some (img : HexImage) (s e pad : Int) :
    hexpad img (some s) (some e) pad false =
      if s < 0 ∨ e < 0 then Except.error PadError.negative
      else if e < s then Except.error PadError.ordering
      else Except.ok (buildPadded img s e pad) := rfl

theorem hexpad_relative_some (img : HexImage) (s e pad : Int) :
    hexpad img (some s) (some e) pad true =
      match minaddr img, maxaddr img with
      | some m, some M => Except.ok (buildPadded img (m + s) (M + e) pad)
      | _, _ => Except.error PadError.typeErr := by
  cases hm : minaddr img <;> cases hM : maxaddr img <;>
    simp [hexpad, hm, hM]

theorem hexpad_absolute_none (img : HexImage) (pad : Int) :
    hexpad img none none pad false =
      match minaddr img, maxaddr img with
      | some m, some M =>
        if m < 0 ∨ M < 0 then Except.error PadError.negative
        else if M < m then Except.error PadError.ordering
        else Except.ok (buildPadded img m M pad)
      | _, _ => Except.error PadError.negative := by
  cases hm : minaddr img <;> cases hM : maxaddr img <;>
    simp [hexpad, hm, hM]

theorem hexpad_absolute_default_eq (img : HexImage) (pad m M : Int)
    (hm : minaddr img = some m) (hM : maxaddr img = some M) :
    hexpad img none none pad false =
      hexpad img (some m) (some M) pad false := by
  rw [hexpad_absolute_none, hexpad_absolute_some, hm, hM]

/-- C2: for resolved bounds `s ≤ e`, the built image defines every
address of `[s, e]`: addresses unused in the input carry
`pad & 0xFF`, addresses used in the input keep their original value
(also inside the pad range); and in absolute mode with valid explicit
bounds the command returns exactly this built image.  The input image
is a value that the build never mutates. -/
theorem hexpad_build_spec (img : HexImage) (s e pad : Int) :
    (∀ x, s ≤ x → x ≤ e →
      hget (buildPadded img s e pad) x =
        some ((hget img x).getD (padByteVal pad))) ∧
    (∀ x, usedAddr img x = true →
      hget (buildPadded img s e pad) x = hget img x) ∧
    (0 ≤ s → s ≤ e →
      hexpad img (some s) (some e) pad false =
        Except.ok (buildPadded img s e pad)) := by
  refine ⟨?_, ?_, ?_⟩
  · intro x h1 h2
    rw [hget_buildPadded, if_pos ⟨h1, h2⟩]
    cases hv : hget img x <;> simp [Option.or]
  · intro x hu
    rw [hget_buildPadded]
    obtain ⟨v, hv⟩ := Option.isSome_iff_exists.1 hu
    rw [hv]
    rfl
  · intro h0 hse
    rw [hexpad_absolute_some, if_neg (show ¬(s < 0 ∨ e < 0) by omega),
      if_neg (show ¬e < s by omega)]

/-- C2 witness: image with only address 0x10 used, padded over
[0, 0x20] with 0xFF: address 0x11 receives the pad byte, address 0x10
keeps its original value 0xAB, and the command returns the built
image. -/
theorem hexpad_build_spec_witness :
    hget (buildPadded [((16 : Int), 171)] 0 32 255) 17 = some 255 ∧
    hget (buildPadded [((16 : Int), 171)] 0 32 255) 16 = some 171 ∧
    hexpad [((16 : Int), 171)] (some 0) (some 32) 255 false =
      Except.ok (buildPadded [((16 : Int), 171)] 0 32 255) := by
  refine ⟨?_, ?_, ?_⟩
  · have h := (hexpad_build_spec [((16 : Int), 171)] 0 32 255).1 17
      (by decide) (by decide)
    rw [h]
    decide
  · have h := (hexpad_build_spec [((16 : Int), 171)] 0 32 255).2.1 16
      (by decide)
    rw [h]
    decide
  · exact (hexpad_build_spec [((16 : Int), 171)] 0 32 255).2.2
      (by decide) (by decide)

/-- C5: absolute-mode validation: a negative start or end aborts with
the negativity user error; non-negative bounds with end before start
abort with the ordering user error.  Both are reported errors that
return before any image is built or written. -/
theorem hexpad_absolute_validation (img : HexImage) (s e pad : Int) :
    ((s < 0 ∨ e < 0) →
      hexpad img (some s) (some e) pad false =
        Except.error PadError.negative) ∧
    (0 ≤ s → 0 ≤ e → e < s →
      hexpad img (some s) (some e) pad false =
        Except.error PadError.ordering) := by
  constructor
  · intro h
    rw [hexpad_absolute_some, if_pos h]
  · intro h0 h1 h2
    rw [hexpad_absolute_some, if_neg (show ¬(s < 0 ∨ e < 0) by omega),
      if_pos h2]

/-- C5 witness: `start=5, end=2` fails with the ordering error and
`start=-1, end=0` fails with the negativity error. -/
theorem hexpad_absolute_validation_witness :
    hexpad ([] : HexImage) (some 5) (some 2) 255 false =
      Except.error PadError.ordering ∧
    hexpad ([] : HexImage) (some (-1)) (some 0) 255 false =
      Except.error PadError.negative := by
  constructor
  · exact (hexpad_absolute_validation [] 5 2 255).2
      (by decide) (by decide) (by decide)
  · exact (hexpad_absolute_validation [] (-1) 0 255).1 (Or.inl (by decide))

/-- C4: an unspecified absolute start/end defaults to the image's
minimum/maximum used address; relative mode defaults unspecified
offsets to 0, applies no non-negativity validation (the offsets range
over all of `Int`), and pads over `[min + start, max + end]`. -/
theorem hexpad_defaults_and_relative_bounds (img : HexImage) (pad : Int) :
    (∀ m M, minaddr img = some m → maxaddr img = some M →
      hexpad img none none pad false =
        hexpad img (some m) (some M) pad false) ∧
    (hexpad img none none pad true = hexpad img (some 0) (some 0) pad true) ∧
    (∀ s e m M, minaddr img = some m → maxaddr img = some M →
      hexpad img (some s) (some e) pad true =
        Except.ok (buildPadded img (m + s) (M + e) pad)) := by
  refine ⟨?_, rfl, ?_⟩
  · intro m M hm hM
    rw [hexpad_absolute_none, hexpad_absolute_some, hm, hM]
  · intro s e m M hm hM
    rw [hexpad_relative_some, hm, hM]

/-- C4 witness: an image with min 0x100 and max 0x200 under relative
offsets -0x10 and +0x10 is padded over [0xF0, 0x210]. -/
theorem hexpad_defaults_and_relative_bounds_witness :
    hexpad [((256 : Int), 1), ((512 : Int), 2)] (some (-16)) (some 16)
        255 true =
      Except.ok
        (buildPadded [((256 : Int), 1), ((512 : Int), 2)] 240 528 255) := by
  exact (hexpad_defaults_and_relative_bounds
      [((256 : Int), 1), ((512 : Int), 2)] 255).2.2 (-16) 16 256 512 rfl rfl

/-- C3 counterexample: in relative mode with an image whose extent is
{0x100} and offsets +10 / -10, the resolved start 0x10A exceeds the
resolved end 0xF6, yet the command does not abort with the ordering
error — it succeeds and returns the original data (the pad range is
empty). -/
theorem hexpad_relative_inverted_range_cex :
    minaddr [((256 : Int), 5)] = some 256 ∧
    maxaddr [((256 : Int), 5)] = some 256 ∧
    (256 + (-10) : Int) < 256 + 10 ∧
    hexpad [((256 : Int), 5)] (some 10) (some (-10)) 255 true =
      Except.ok [((256 : Int), 5)] ∧
    hexpad [((256 : Int), 5)] (some 10) (some (-10)) 255 true ≠
      Except.error PadError.ordering := by
  refine ⟨rfl, rfl, by decide, rfl, ?_⟩
  intro h
  rw [show hexpad [((256 : Int), 5)] (some 10) (some (-10)) 255 true =
      Except.ok [((256 : Int), 5)] from rfl] at h
  exact Except.noConfusion h

/-- C3 amended: relative mode performs no ordering validation; when
the resolved absolute start exceeds the resolved absolute end the pad
range is empty, the operation succeeds, and the output image holds
exactly the input's data. -/
theorem hexpad_relative_inverted_range (img : HexImage)
    (m M s e pad : Int) (hm : minaddr img = some m)
    (hM : maxaddr img = some M) (hlt : M + e < m + s) :
    ∃ out, hexpad img (some s) (some e) pad true = Except.ok out ∧
      ∀ x, hget out x = hget img x := by
  refine ⟨buildPadded img (m + s) (M + e) pad, ?_, ?_⟩
  · rw [hexpad_relative_some, hm, hM]
  · intro x
    rw [hget_buildPadded, if_neg (show ¬(m + s ≤ x ∧ x ≤ M + e) by omega)]
    cases hget img x <;> rfl

/-- C3 amended witness: the concrete inverted-range invocation above
succeeds with the original data. -/
theorem hexpad_relative_inverted_range_witness :
    ∃ out,
      hexpad [((256 : Int), 5)] (some 10) (some (-10)) 255 true =
        Except.ok out ∧
      ∀ x, hget out x = hget [((256 : Int), 5)] x := by
  exact hexpad_relative_inverted_range [((256 : Int), 5)] 256 256 10 (-10)
    255 rfl rfl (by decide)

/-- C10 counterexample: on an image with no used addresses,
absolute-default hex-pad does not crash with an unhandled exception;
under the source's Python 2 semantics `None < 0` is true, so it
aborts with the reported negativity user error. -/
theorem hexpad_empty_default_cex :
    hexpad ([] : HexImage) none none 255 false =
      Except.error PadError.negative ∧
    PadError.negative ≠ PadError.typeErr := by
  exact ⟨rfl, by decide⟩

/-- C10 amended: absolute mode with both bounds unspecified succeeds
for every image with at least one used address (given the HexImage
invariant that addresses are non-negative): the defaulted bounds are
the minimum and maximum used address and they pass validation.  For
the empty image the defaulted bounds are `None`; under Python 2
`None < 0` is true, so the negativity check fires and the command
aborts with the reported negativity user error, not with an unhandled
exception. -/
theorem hexpad_absolute_default_totality (img : HexImage) (pad : Int) :
    ((∀ p ∈ img, 0 ≤ p.1) → img ≠ [] →
      ∃ m M, minaddr img = some m ∧ maxaddr img = some M ∧
        hexpad img none none pad false =
          Except.ok (buildPadded img m M pad)) ∧
    hexpad ([] : HexImage) none none pad false =
      Except.error PadError.negative := by
  constructor
  · intro hpos hne
    obtain ⟨p, t, rfl⟩ : ∃ p t, img = p :: t := by
      cases img with
      | nil => exact absurd rfl hne
      | cons p t => exact ⟨p, t, rfl⟩
    obtain ⟨m, hm⟩ : ∃ m, minaddr (p :: t) = some m := ⟨_, rfl⟩
    obtain ⟨M, hM⟩ : ∃ M, maxaddr (p :: t) = some M := ⟨_, rfl⟩
    have h0 : 0 ≤ m := minaddr_nonneg (p :: t) m hpos hm
    have hmM : m ≤ M := minaddr_le_maxaddr (p :: t) m M hm hM
    refine ⟨m, M, hm, hM, ?_⟩
    rw [hexpad_absolute_default_eq (p :: t) pad m M hm hM,
      hexpad_absolute_some,
      if_neg (show ¬(m < 0 ∨ M < 0) by omega),
      if_neg (show ¬M < m by omega)]
  · rfl

/-- C10 amended witness: a one-byte image at address 0x10 pads its
own extent successfully, and the empty image aborts with the
negativity user error. -/
theorem hexpad_absolute_default_totality_witness :
    (∃ m M, minaddr [((16 : Int), 1)] = some m ∧
      maxaddr [((16 : Int), 1)] = some M ∧
      hexpad [((16 : Int), 1)] none none 255 false =
        Except.ok (buildPadded [((16 : Int), 1)] m M 255)) ∧
    hexpad ([] : HexImage) none none 255 false =
      Except.error PadError.negative := by
  constructor
  · exact (hexpad_absolute_default_totality [((16 : Int), 1)] 255).1
      (by decide) (by decide)
  · exact (hexpad_absolute_default_totality [((16 : Int), 1)] 255).2

/-! ## Claim theorems: hex conversion scalar functions -/

/-- Weight of the leading digit position of `n` in base 16: `16 ^ d`
where `d` is the number of hex digits of `n`. -/
def hexWeight (n : Nat) : Nat :=
  if h : n < 16 then 16 else 16 * hexWeight (n / 16)
termination_by n
decreasing_by
  exact Nat.div_lt_self (Nat.lt_of_lt_of_le (by decide) (Nat.le_of_not_lt h))
    (by decide)

theorem hexCharVal_hexDigitChar :
    ∀ d, d < 16 → hexCharVal (hexDigitChar d) = some d := by decide

theorem parseHexGo_cons (c : Char) (l : List Char) (a d : Nat)
    (hc : hexCharVal c = some d) :
    parseHexGo (c :: l) (some a) = parseHexGo l (some (16 * a + d)) := by
  simp only [parseHexGo, List.foldl_cons, hc]

theorem parse_toHexAux (n : Nat) : ∀ (a : Nat) (rest : List Char),
    parseHexGo (toHexAux n rest) (some a) =
      parseHexGo rest (some (a * hexWeight n + n)) := by
  induction n using Nat.strong_induction_on with
  | _ n ih =>
    intro a rest
    by_cases h : n < 16
    · rw [toHexAux, dif_pos h,
        parseHexGo_cons _ _ _ n (hexCharVal_hexDigitChar n h),
        hexWeight, dif_pos h, Nat.mul_comm]
    · have hw : hexWeight n = 16 * hexWeight (n / 16) := by
        rw [hexWeight, dif_neg h]
      rw [toHexAux, dif_neg h,
        ih (n / 16)
          (Nat.div_lt_self (Nat.lt_of_lt_of_le (by decide)
            (Nat.le_of_not_lt h)) (by decide)) a
          (hexDigitChar (n % 16) :: rest),
        parseHexGo_cons _ _ _ (n % 16)
          (hexCharVal_hexDigitChar (n % 16) (Nat.mod_lt n (by decide))),
        hw]
      congr 2
      calc 16 * (a * hexWeight (n / 16) + n / 16) + n % 16
          = a * (16 * hexWeight (n / 16)) + (16 * (n / 16) + n % 16) := by
            ring
        _ = a * (16 * hexWeight (n / 16)) + n := by rw [Nat.div_add_mod]

theorem toHexAux_ne_nil (n : Nat) : ∀ acc : List Char,
    toHexAux n acc ≠ [] := by
  induction n using Nat.strong_induction_on with
  | _ n ih =>
    intro acc
    by_cases h : n < 16
    · rw [toHexAux, dif_pos h]
      exact List.cons_ne_nil _ _
    · rw [toHexAux, dif_neg h]
      exact ih (n / 16)
        (Nat.div_lt_self (Nat.lt_of_lt_of_le (by decide)
          (Nat.le_of_not_lt h)) (by decide)) _

theorem parseHexGo_zeros (k : Nat) (l : List Char) :
    parseHexGo (List.replicate k '0' ++ l) (some 0) =
      parseHexGo l (some 0) := by
  induction k with
  | zero => rfl
  | succ k ih =>
    rw [List.replicate_succ, List.cons_append,
      parseHexGo_cons _ _ _ 0 (by decide)]
    exact ih

theorem from_hex_eq (s : String) (h : s.data ≠ []) :
    from_hex s = parseHexGo s.data (some 0) := by
  unfold from_hex
  cases hd : s.data with
  | nil => exact absurd hd h
  | cons c t => rfl

theorem from_hex_to_hex (n w : Nat) : from_hex (to_hex n w) = some n := by
  have hdata : (to_hex n w).data =
      List.replicate (w - (toHexAux n []).length) '0' ++ toHexAux n [] :=
    rfl
  have hne : (to_hex n w).data ≠ [] := by
    rw [hdata]
    intro hc
    exact toHexAux_ne_nil n [] (List.append_eq_nil.1 hc).2
  rw [from_hex_eq _ hne, hdata, parseHexGo_zeros, parse_toHexAux n 0 []]
  simp [parseHexGo]

/-- C7: `to_hex` renders a non-negative integer as uppercase
hexadecimal zero-padded to the requested width (`to_hex 255 4 =
"00FF"`), `from_hex` parses an unprefixed hex string
(`from_hex "FF" = 255`), and for every `n` fitting in `w` hex digits
the round-trip `from_hex (to_hex n w)` returns `n`. -/
theorem to_hex_from_hex_spec :
    to_hex 255 4 = "00FF" ∧
    from_hex "FF" = some 255 ∧
    ∀ n w : Nat, n < 16 ^ w → from_hex (to_hex n w) = some n := by
  refine ⟨?_, ?_, fun n w _ => from_hex_to_hex n w⟩
  · simp [to_hex, toHexAux]
    decide
  · decide

/-- C7 witness: the round-trip at `n = 255`, `w = 2`; 255 fits in two
hex digits. -/
theorem to_hex_from_hex_spec_witness :
    (255 : Nat) < 16 ^ 2 ∧ from_hex (to_hex 255 2) = some 255 :=
  ⟨by decide, to_hex_from_hex_spec.2.2 255 2 (by decide)⟩

/-! ## Claim theorems: ELF projection -/

theorem numberSyms_length (elf : ELF) : ∀ (syms : List ElfSymbol) (r : Nat),
    (numberSyms elf r syms).length = syms.length := by
  intro syms
  induction syms with
  | nil => intro r; rfl
  | cons s t ih =>
    intro r
    simp only [numberSyms, List.length_cons, ih]

theorem numberSyms_map_name (elf : ELF) :
    ∀ (syms : List ElfSymbol) (r : Nat),
    (numberSyms elf r syms).map (fun q => q.name) =
      syms.map (fun y => pyStrip y.name) := by
  intro syms
  induction syms with
  | nil => intro r; rfl
  | cons s t ih =>
    intro r
    simp only [numberSyms, List.map_cons, ih]
    rfl

theorem numberSyms_map_number (elf : ELF) :
    ∀ (syms : List ElfSymbol) (r : Nat),
    (numberSyms elf r syms).map (fun q => q.number) =
      List.range' r syms.length := by
  intro syms
  induction syms with
  | nil => intro r; rfl
  | cons s t ih =>
    intro r
    simp only [numberSyms, List.map_cons, ih, List.length_cons]
    rfl

theorem symbolRowsGo_length (elf : ELF) :
    ∀ (secs : List ElfSection) (r : Nat),
    (symbolRowsGo elf r secs).length =
      ((secs.map (fun s => s.symbols.length)).sum) := by
  intro secs
  induction secs with
  | nil => intro r; rfl
  | cons sec rest ih =>
    intro r
    simp only [symbolRowsGo, List.length_append, numberSyms_length,
      List.map_cons, List.sum_cons, ih]

theorem symbolRowsGo_map_name (elf : ELF) :
    ∀ (secs : List ElfSection) (r : Nat),
    (symbolRowsGo elf r secs).map (fun q => q.name) =
      secs.flatMap (fun s => s.symbols.map (fun y => pyStrip y.name)) := by
  intro secs
  induction secs with
  | nil => intro r; rfl
  | cons sec rest ih =>
    intro r
    simp only [symbolRowsGo, List.map_append, numberSyms_map_name, ih,
      List.flatMap_cons]

theorem symbolRowsGo_map_number (elf : ELF) :
    ∀ (secs : List ElfSection) (r : Nat),
    (symbolRowsGo elf r secs).map (fun q => q.number) =
      List.range' r (symbolRowsGo elf r secs).length := by
  intro secs
  induction secs with
  | nil => intro r; rfl
  | cons sec rest ih =>
    intro r
    simp only [symbolRowsGo, List.map_append, numberSyms_map_number, ih,
      List.length_append, numberSyms_length]
    have h := List.range'_append r sec.symbols.length
      (symbolRowsGo elf (r + sec.symbols.length) rest).length 1
    simp only [one_mul] at h
    rw [h, Nat.add_comm]

theorem mem_numberSyms (elf : ELF) :
    ∀ (syms : List ElfSymbol) (r : Nat) (q : SymbolRow),
    q ∈ numberSyms elf r syms →
      ∃ r2 sym, sym ∈ syms ∧ q = mkSymbolRow elf r2 sym := by
  intro syms
  induction syms with
  | nil => intro r q hq; exact absurd hq (List.not_mem_nil q)
  | cons s t ih =>
    intro r q hq
    rcases List.mem_cons.1 hq with h | h
    · exact ⟨r, s, List.mem_cons_self s t, h⟩
    · obtain ⟨r2, sym, hmem, heq⟩ := ih (r + 1) q h
      exact ⟨r2, sym, List.mem_cons_of_mem s hmem, heq⟩

theorem mem_symbolRowsGo (elf : ELF) :
    ∀ (secs : List ElfSection) (r : Nat) (q : SymbolRow),
    q ∈ symbolRowsGo elf r secs →
      ∃ r2 sym sec, sec ∈ secs ∧ sym ∈ sec.symbols ∧
        q = mkSymbolRow elf r2 sym := by
  intro secs
  induction secs with
  | nil => intro r q hq; exact absurd hq (List.not_mem_nil q)
  | cons sec rest ih =>
    intro r q hq
    rcases List.mem_append.1 hq with h | h
    · obtain ⟨r2, sym, hmem, heq⟩ := mem_numberSyms elf sec.symbols r q h
      exact ⟨r2, sym, sec, List.mem_cons_self sec rest, hmem, heq⟩
    · obtain ⟨r2, sym, sec2, hsec, hmem, heq⟩ :=
        ih (r + sec.symbols.length) q h
      exact ⟨r2, sym, sec2, List.mem_cons_of_mem sec hsec, hmem, heq⟩

theorem relatedSection_cases (elf : ELF) (s : String) :
    relatedSection elf s = none ∨
      ∃ sec ∈ elf.sections,
        relatedSection elf s = some (pyStrip sec.name) := by
  unfold relatedSection
  by_cases h : strIsDigit s = true
  · rw [if_pos h]
    cases hg : List.get? elf.sections (digitsToNat s) with
    | none => exact Or.inl rfl
    | some sec => exact Or.inr ⟨sec, List.get?_mem hg, rfl⟩
  · rw [if_neg h]
    exact Or.inl rfl

/-- C8: the projected sections table has exactly one row per ELF
section in file order, with `Number` equal to the enumeration
position; the symbols table has exactly one row per entry of each
symbol-table section with non-zero entry size, iterated in file
order (tables with zero entry size contribute no rows). -/
theorem elf_projection_spec (elf : ELF) :
    ((sectionRows elf).length = elf.sections.length ∧
      ∀ i (hi : i < (sectionRows elf).length),
        ((sectionRows elf).get ⟨i, hi⟩).number = i) ∧
    ((symbolRows elf).length =
        ((symtabSections elf).map (fun s => s.symbols.length)).sum ∧
      (symbolRows elf).map (fun q => q.name) =
        (symtabSections elf).flatMap
          (fun s => s.symbols.map (fun y => pyStrip y.name))) := by
  refine ⟨⟨?_, ?_⟩, ?_, ?_⟩
  · simp [sectionRows]
  · intro i hi
    simp [sectionRows, List.get_eq_getElem, List.getElem_map,
      List.getElem_enum]
  · exact symbolRowsGo_length elf (symtabSections elf) 1
  · exact symbolRowsGo_map_name elf (symtabSections elf) 1

/-- A small concrete ELF used to instantiate the projection theorems:
a non-symbol-table section followed by a symbol table with non-zero
entry size holding two symbols, followed by a symbol table with zero
entry size holding one symbol. -/
def sampleElf : ELF :=
  ⟨[⟨".text", "PROGBITS", "AX", 0, 52, 8, 0, 0, 4, 0, false, []⟩,
    ⟨".symtab", "SYMTAB", "", 0, 60, 32, 1, 0, 4, 16, true,
      [⟨0, 0, "NOTYPE", "LOCAL", "DEFAULT", "UND", "a"⟩,
        ⟨4, 2, "FUNC", "GLOBAL", "DEFAULT", "0", "b"⟩]⟩,
    ⟨".broken", "SYMTAB", "", 0, 92, 0, 1, 0, 4, 0, true,
      [⟨0, 0, "NOTYPE", "LOCAL", "DEFAULT", "UND", "c"⟩]⟩]⟩

/-- C8 witness: on the sample ELF, there are three section rows whose
second row carries index 1, and the symbol rows are exactly the two
entries of the non-zero-entry-size table (the zero-entry-size table
contributes none). -/
theorem elf_projection_spec_witness :
    (sectionRows sampleElf).length = 3 ∧
    ((sectionRows sampleElf).get
      ⟨1, by decide⟩).number = 1 ∧
    (symbolRows sampleElf).length = 2 ∧
    (symbolRows sampleElf).map (fun q => q.name) = ["a", "b"] := by
  have h := elf_projection_spec sampleElf
  refine ⟨?_, h.1.2 1 (by decide), ?_, ?_⟩
  · rw [h.1.1]
    rfl
  · rw [h.2.1]
    rfl
  · rw [h.2.2]
    decide

/-- A concrete ELF with a single symbol-table section `.symtab`
(entry size 4) holding one symbol whose section index is the special
token `UND`.  Used to test what the symbols table records. -/
def cexElf : ELF :=
  ⟨[⟨".symtab", "SYMTAB", "", 0, 0, 0, 0, 0, 0, 4, true,
    [⟨0, 0, "NOTYPE", "LOCAL", "DEFAULT", "UND", "sym"⟩]⟩]⟩

/-- C9 counterexample: on `cexElf`, whose only symbol lives at 0-based
ordinal 0 of the table named `.symtab`, the single projected row does
NOT record the owning table's name (its `Section` column is NULL, the
unresolved `UND` token) and does NOT record ordinal 0 (its
autoincrement `Number` is 1). -/
theorem symbolRows_owner_ordinal_cex :
    (symbolRows cexElf).length = 1 ∧
    ¬ ∀ r ∈ symbolRows cexElf,
        r.sectionName = some ".symtab" ∧ r.number = 0 := by
  decide

/-- C9 amended: the symbols table's primary key is the single
autoincrement `Number` column, assigned 1-based in insertion order
across all symbol tables (the projected `Number` values are exactly
`1, 2, ..., N` in row order, hence unique); the `Section` column
instead holds the stripped name of the section referenced by the
symbol's section-index field when it resolves, and NULL otherwise. -/
theorem symbolRows_autoincrement_key (elf : ELF) :
    (symbolRows elf).map (fun r => r.number) =
      List.range' 1 (symbolRows elf).length ∧
    ∀ r ∈ symbolRows elf, r.sectionName = none ∨
      ∃ sec ∈ elf.sections, r.sectionName = some (pyStrip sec.name) := by
  constructor
  · exact symbolRowsGo_map_number elf (symtabSections elf) 1
  · intro r hr
    obtain ⟨r2, sym, sec, hsec, hmem, heq⟩ :=
      mem_symbolRowsGo elf (symtabSections elf) 1 r hr
    rw [heq]
    exact relatedSection_cases elf (pyStrip sym.shndx)

/-- C9 amended witness: on the sample ELF the `Number` values are
`[1, 2]`, and each row's `Section` column is NULL or a section name
of the file. -/
theorem symbolRows_autoincrement_key_witness :
    (symbolRows sampleElf).map (fun r => r.number) = [1, 2] ∧
    ∀ r ∈ symbolRows sampleElf, r.sectionName = none ∨
      ∃ sec ∈ sampleElf.sections,
        r.sectionName = some (pyStrip sec.name) := by
  have h := symbolRows_autoincrement_key sampleElf
  constructor
  · rw [h.1]
    decide
  · exact h.2
